import Mathlib

set_option autoImplicit false

/-!
Verification of SwiftBot's update-dispatch core (`SwiftBot/router.py`,
`SwiftBot/types.py`, `SwiftBot/filters.py`, `SwiftBot/client.py`) against its
natural-language specification.  Each Python function named below is translated
into an executable Lean definition; strings are modelled as `List Char`,
machine integers as `Nat`/`Int`, Python floats in the backoff arithmetic as
`ℚ` (all quantities involved — `0.5 * 2^k` and the cap `60` — are dyadic
rationals on which float arithmetic is exact), and fallible code as `Except`.
-/

namespace SwiftBot

/-- Python strings, modelled as character lists. -/
abbrev Str := List Char

/-! ## Command trie (`router.py`, classes `TrieNode` / `CommandTrie`) -/

/-- A node of the command trie (`TrieNode.__init__`): a `children` dict
(modelled as an association list keyed by characters), the optional bound
`handler` value, and the `is_end` flag. -/
inductive TrieNode (α : Type) where
  | node (children : List (Char × TrieNode α)) (handler : Option α) (isEnd : Bool)

/-- Dict lookup `node.children[char]` (`None` when the key is absent). -/
def childGet {α : Type} : List (Char × TrieNode α) → Char → Option (TrieNode α)
  | [], _ => none
  | (c', t) :: rest, c => if c' = c then some t else childGet rest c

/-- Dict update `node.children[char] = t`: replace an existing entry,
otherwise append a new one. -/
def childSet {α : Type} :
    List (Char × TrieNode α) → Char → TrieNode α → List (Char × TrieNode α)
  | [], c, t => [(c, t)]
  | (c', t') :: rest, c, t =>
    if c' = c then (c, t) :: rest else (c', t') :: childSet rest c t

/-- A freshly constructed `TrieNode()`. -/
def TrieNode.empty {α : Type} : TrieNode α := .node [] none false

/-- `CommandTrie.insert` (`router.py` lines 37–52): walk/create one node per
character, then mark the final node terminal and attach the value. -/
def TrieNode.insert {α : Type} : TrieNode α → Str → α → TrieNode α
  | .node ch _ _, [], v => .node ch (some v) true
  | .node ch h e, c :: cs, v =>
    .node (childSet ch c (((childGet ch c).getD .empty).insert cs v)) h e

/-- `CommandTrie.search` (`router.py` lines 54–70): walk the path; an absent
edge yields `None`; at the end, return the handler only if `is_end`. -/
def TrieNode.search {α : Type} : TrieNode α → Str → Option α
  | .node _ h e, [] => if e then h else none
  | .node ch _ _, c :: cs =>
    match childGet ch c with
    | none => none
    | some child => child.search cs

/-- A trie built by a sequence of `insert` calls starting from the fresh root
(`CommandTrie.__init__`). -/
def buildTrie {α : Type} (l : List (Str × α)) : TrieNode α :=
  l.foldl (fun t p => t.insert p.1 p.2) TrieNode.empty

/-- The binding of the command `c` after the insert sequence `l`:
the value of the **last** pair of `l` whose key is `c`, if any. -/
def lastBinding {α : Type} : List (Str × α) → Str → Option α
  | [], _ => none
  | p :: rest, c =>
    match lastBinding rest c with
    | some v => some v
    | none => if p.1 = c then some p.2 else none

/-! ## Updates and event specs (`types.py`, class `EventType`) -/

/-- An opaque value of an extra update attribute (`chat_id`, `user_id`, …). -/
abbrev FieldVal := Int

/-- The right-hand side of a keyword filter in `EventType.__init__`'s
`**kwargs`: either a single value or a list of admissible values. -/
inductive ConstraintVal where
  | single (v : FieldVal)
  | listOf (vs : List FieldVal)

/-- A compiled regex, modelled by its `pattern.match(text)` behavior:
`some tok` stands for a (always truthy) match object identified by the token
`tok`, `none` for `None`. -/
structure RPattern where
  matchAt : Str → Option Nat

/-- The concrete `EventType` subclass a spec was built from; `type(event_type).__name__`
dispatches on this. -/
inductive EventClass where
  | Message
  | EditedMessage
  | CallbackQuery
  | InlineQuery
  | other (name : String)
deriving DecidableEq

/-- `type(event_type).__name__`. -/
def EventClass.className : EventClass → String
  | .Message => "Message"
  | .EditedMessage => "EditedMessage"
  | .CallbackQuery => "CallbackQuery"
  | .InlineQuery => "InlineQuery"
  | .other n => n

/-- A normalized inbound update object as consumed by `EventType.matches` and
`CommandRouter.route`.  `text = none` models an object without a `text`
attribute, `some none` a `text` attribute holding `None`, and `some (some s)`
a string-valued `text`.  `fields` holds the extra attributes consulted by
keyword filters. -/
structure UpdateObj where
  text : Option (Option Str)
  fields : List (String × FieldVal)

/-- An `EventType` instance (`types.py` lines 41–66): optional exact text,
compiled pattern list, optional custom predicate, and keyword filters. -/
structure EventSpec where
  cls : EventClass
  text : Option Str
  patterns : List RPattern
  func : Option (UpdateObj → Bool)
  filters : List (String × ConstraintVal)

/-- Result of `EventType.matches`: Python `None`, a regex match object, or
the literal `True`. -/
inductive MatchRes where
  | noMatch
  | regexMatch (tok : Nat)
  | plainTrue

/-- Truthiness of `self.text` (non-`None` and non-empty). -/
def specTextTruthy (spec : EventSpec) : Bool :=
  match spec.text with
  | some t => !t.isEmpty
  | none => false

/-- Truthiness of `update.text` as tested by `hasattr(update, 'text') and
update.text`: the attribute exists, is not `None`, and is non-empty. -/
def updTextTruthy (u : UpdateObj) : Option Str :=
  match u.text with
  | some (some t) => if t.isEmpty then none else some t
  | _ => none

/-- The exact-text block of `EventType.matches` (lines 89–92): when
`self.text` is truthy and the update has a `text` attribute, a differing
value (including `None`) rejects. -/
def block1Rejects (spec : EventSpec) (u : UpdateObj) : Bool :=
  specTextTruthy spec &&
    (match u.text with
     | none => false
     | some av => decide (av ≠ spec.text))

/-- The pattern loop: the first pattern whose `match` is truthy wins. -/
def firstPatMatch : List RPattern → Str → Option Nat
  | [], _ => none
  | p :: ps, t =>
    match p.matchAt t with
    | some tok => some tok
    | none => firstPatMatch ps t

/-- `getattr(update, key)` over the modelled extra attributes. -/
def lookupField : List (String × FieldVal) → String → Option FieldVal
  | [], _ => none
  | (k, v) :: rest, key => if k = key then some v else lookupField rest key

/-- One keyword filter check (`types.py` lines 112–117). -/
def constraintOk : ConstraintVal → FieldVal → Bool
  | .single v, uv => uv = v
  | .listOf vs, uv => vs.contains uv

/-- The keyword-filter loop (`types.py` lines 108–117): a missing attribute
or a failing constraint rejects. -/
def filtersPass (u : UpdateObj) : List (String × ConstraintVal) → Bool
  | [] => true
  | (key, v) :: rest =>
    match lookupField u.fields key with
    | none => false
    | some uv => constraintOk v uv && filtersPass u rest

/-- The tail of `EventType.matches` (lines 103–119): the custom predicate
check, then the keyword filters, then `return True`. -/
def funcFiltersCheck (spec : EventSpec) (u : UpdateObj) : MatchRes :=
  match spec.func with
  | some f =>
    if f u then
      (if filtersPass u spec.filters then .plainTrue else .noMatch)
    else .noMatch
  | none => if filtersPass u spec.filters then .plainTrue else .noMatch

/-- `EventType.matches` (`types.py` lines 84–119).  A matching pattern
returns its match object immediately; when patterns exist but none match,
the update is rejected **only if no exact text was configured**
(`if self.text is None`). -/
def EventSpec.matches (spec : EventSpec) (u : UpdateObj) : MatchRes :=
  if block1Rejects spec u then .noMatch
  else
    match spec.patterns, updTextTruthy u with
    | _ :: _, some t =>
      match firstPatMatch spec.patterns t with
      | some tok => .regexMatch tok
      | none =>
        match spec.text with
        | none => .noMatch
        | some _ => funcFiltersCheck spec u
    | _, _ => funcFiltersCheck spec u

/-! ## Router (`router.py`, class `CommandRouter`) -/

/-- `CommandRouter` state: the command trie (binding `(handler, event_type)`
pairs) and the per-update-type handler tables, each a list of
`(event_type, handler, priority)` kept sorted by priority descending. -/
structure Router (H : Type) where
  commandTrie : TrieNode (H × EventSpec)
  textHandlers : List (EventSpec × H × Int)
  callbackHandlers : List (EventSpec × H × Int)
  inlineHandlers : List (EventSpec × H × Int)
  otherHandlers : List (String × List (EventSpec × H × Int))

/-- `CommandRouter.__init__`. -/
def Router.empty {H : Type} : Router H := ⟨TrieNode.empty, [], [], [], []⟩

/-- `list.append(x)` followed by the stable `list.sort(key=priority,
reverse=True)` on an already priority-sorted list: `x` lands after every
entry of priority `≥` its own (stability keeps registration order among
equal priorities). -/
def addToSorted {H : Type} (x : EventSpec × H × Int) :
    List (EventSpec × H × Int) → List (EventSpec × H × Int)
  | [] => [x]
  | y :: ys => if y.2.2 < x.2.2 then x :: y :: ys else y :: addToSorted x ys

/-- `self.other_handlers[event_name].append(...)` on the `defaultdict`. -/
def addOther {H : Type} (name : String) (x : EventSpec × H × Int) :
    List (String × List (EventSpec × H × Int)) →
      List (String × List (EventSpec × H × Int))
  | [] => [(name, [x])]
  | (n, l) :: rest =>
    if n = name then (n, addToSorted x l) :: rest
    else (n, l) :: addOther name x rest

/-- `self.other_handlers.get(update_type, [])`. -/
def lookupOther {H : Type} :
    List (String × List (EventSpec × H × Int)) → String →
      List (EventSpec × H × Int)
  | [], _ => []
  | (n, l) :: rest, name => if n = name then l else lookupOther rest name

/-- The command test in `CommandRouter.add_handler` (lines 110–114):
`event_type.text` is truthy and starts with `'/'`.  Returns the command text
on success. -/
def commandText (spec : EventSpec) : Option Str :=
  match spec.text with
  | some ('/' :: cs) => some ('/' :: cs)
  | _ => none

/-- `CommandRouter.add_handler` (`router.py` lines 98–128).  Every
`EventType` has a `text` attribute (set in `EventType.__init__`), so the
`hasattr` conjunct always holds for Message specs. -/
def Router.addHandler {H : Type} (r : Router H) (spec : EventSpec) (h : H)
    (priority : Int) : Router H :=
  if spec.cls.className = "Message" then
    match commandText spec with
    | some t => { r with commandTrie := r.commandTrie.insert t (h, spec) }
    | none =>
      { r with textHandlers := addToSorted (spec, h, priority) r.textHandlers }
  else if spec.cls.className = "CallbackQuery" then
    { r with callbackHandlers :=
        addToSorted (spec, h, priority) r.callbackHandlers }
  else if spec.cls.className = "InlineQuery" then
    { r with inlineHandlers :=
        addToSorted (spec, h, priority) r.inlineHandlers }
  else
    { r with otherHandlers :=
        addOther spec.cls.className (spec, h, priority) r.otherHandlers }

/-- Python's default whitespace set for `str.strip()` / `str.split()`
(ASCII range; the sources only ever carry ASCII command text). -/
def isPySpace (c : Char) : Bool :=
  c == ' ' || c == '\t' || c == '\n' || c == '\r' || c == '\x0b' || c == '\x0c'

/-- Python `text.strip()`. -/
def pyStrip (s : Str) : Str :=
  ((s.dropWhile isPySpace).reverse.dropWhile isPySpace).reverse

/-- `text.split()[0].split('@')[0]` on the stripped text: the first
whitespace-delimited token, truncated at the first `'@'`. -/
def extractCommand (t : Str) : Str :=
  (t.takeWhile (fun c => !isPySpace c)).takeWhile (fun c => c != '@')

/-- The priority-table scan of `CommandRouter.route` (lines 172–178): first
spec whose `matches` is truthy wins; a regex match object is passed through,
the literal `True` becomes `None`. -/
def scanHandlers {H : Type} (u : UpdateObj) :
    List (EventSpec × H × Int) → Option (H × Option Nat × EventSpec)
  | [] => none
  | (spec, h, _) :: rest =>
    match spec.matches u with
    | .noMatch => scanHandlers u rest
    | .regexMatch tok => some (h, some tok, spec)
    | .plainTrue => some (h, none, spec)

/-- `CommandRouter.route` (`router.py` lines 140–180): the trie fast path for
message updates whose stripped text starts with `'/'`, then the
priority-ordered table for the update type.  `none` models the
`(None, None, None)` return. -/
def Router.route {H : Type} (r : Router H) (u : UpdateObj)
    (updateType : String) : Option (H × Option Nat × EventSpec) :=
  let fast : Option (H × Option Nat × EventSpec) :=
    if updateType = "message" then
      match updTextTruthy u with
      | some t0 =>
        match pyStrip t0 with
        | '/' :: cs =>
          match r.commandTrie.search (extractCommand ('/' :: cs)) with
          | some (h, spec) => some (h, none, spec)
          | none => none
        | _ => none
      | none => none
    else none
  match fast with
  | some res => some res
  | none =>
    scanHandlers u
      (if updateType = "message" then r.textHandlers
       else if updateType = "callback_query" then r.callbackHandlers
       else if updateType = "inline_query" then r.inlineHandlers
       else lookupOther r.otherHandlers updateType)

/-! ## Concrete fixtures used by closed statements -/

/-- The spec `Message(text="/ping")`. -/
def specPing : EventSpec :=
  ⟨EventClass.Message, some ['/', 'p', 'i', 'n', 'g'], [], none, []⟩

/-- A pattern whose `match` succeeds on every text (e.g. a regex `.*`). -/
def patAll : RPattern := ⟨fun _ => some 0⟩

/-- A pattern whose `match` never succeeds. -/
def patNever : RPattern := ⟨fun _ => none⟩

/-- A pattern-only Message spec (no exact text). -/
def specPat : EventSpec := ⟨EventClass.Message, none, [patAll], none, []⟩

/-- Router with the command spec `/ping` registered at priority 0 and the
all-matching pattern spec at priority 10. -/
def routerPing : Router Nat :=
  (Router.empty.addHandler specPing 7 0).addHandler specPat 8 10

/-- A message update carrying the text `"/ping"`. -/
def updPing : UpdateObj := ⟨some (some ['/', 'p', 'i', 'n', 'g']), []⟩

/-- `Message(text="/a", func=lambda u: False)`: exact command text plus an
always-rejecting custom predicate. -/
def specSlashAFunc : EventSpec :=
  ⟨EventClass.Message, some ['/', 'a'], [], some (fun _ => false), []⟩

/-- A message update carrying the text `"/a"`. -/
def updSlashA : UpdateObj := ⟨some (some ['/', 'a']), []⟩

/-- `Message(text="/a", pattern=<never matching>)`. -/
def specSlashAPat : EventSpec :=
  ⟨EventClass.Message, some ['/', 'a'], [patNever], none, []⟩

/-! ## Filter algebra (`filters.py`) -/

/-- A filter expression over messages of type `M`, as built from the
source's `Filter` classes: the `AndFilter` / `OrFilter` / `NotFilter`
combinators (`andF` / `orF` / `notF`) and the leaf filter classes.  Every
leaf class of `filters.py` (`TextFilter`, `CommandFilter`, …,
`CustomFilter`) wraps its predicate body in `try: ... except: return
False`, so a leaf carries a possibly-raising body `M → Except Unit Bool`
whose evaluation catches the exception. -/
inductive BotFilter (M : Type) where
  | leaf (body : M → Except Unit Bool)
  | andF (a b : BotFilter M)
  | orF (a b : BotFilter M)
  | notF (a : BotFilter M)

/-- Evaluation of a filter call, `.error` standing for a raised exception.
Each case translates the corresponding `__call__` of `filters.py`; the
`except` branches of the combinators are translated as well, although leaf
evaluation never raises. -/
def evalF {M : Type} : BotFilter M → M → Except Unit Bool
  | .leaf body, m =>
    -- every leaf class: `try: return <predicate>` / `except: return False`
    match body m with
    | .ok b => .ok b
    | .error _ => .ok false
  | .andF a b, m =>
    -- `AndFilter.__call__`: `try: return self.filter1(message) and
    -- self.filter2(message)` / `except: return False`; Python `and`
    -- short-circuits, so a falsy first operand skips the second
    match evalF a m with
    | .error _ => .ok false
    | .ok false => .ok false
    | .ok true =>
      match evalF b m with
      | .error _ => .ok false
      | .ok b2 => .ok b2
  | .orF a b, m =>
    -- `OrFilter.__call__`: `try: return self.filter1(message) or
    -- self.filter2(message)` / `except: return False`
    match evalF a m with
    | .error _ => .ok false
    | .ok true => .ok true
    | .ok false =>
      match evalF b m with
      | .error _ => .ok false
      | .ok b2 => .ok b2
  | .notF a, m =>
    -- `NotFilter.__call__`: `try: return not self.filter(message)` /
    -- `except: return True`
    match evalF a m with
    | .error _ => .ok true
    | .ok b => .ok !b

/-- The boolean a filter call yields. -/
def evalBool {M : Type} (f : BotFilter M) (m : M) : Bool :=
  match evalF f m with
  | .ok b => b
  | .error _ => false

/-! ## Middleware chain (`client.py`, `SwiftBot._execute_middleware_chain`) -/

/-- One registered middleware as seen by `_execute_middleware_chain`:
whether it defines `on_update` and `on_error`, and what its `on_error` does
when invoked (`.error` = the hook itself raises).  Its `on_update`, when
present, is modelled with the shape of every middleware shipped in
`SwiftBot/middleware/` (`Logger`, `Analytics`, `RateLimiter`,
`UserDataMiddleware`): it awaits `next_handler()` exactly once and lets
exceptions propagate. -/
structure Middleware where
  hasOnUpdate : Bool
  hasOnError : Bool
  onErrorBody : Except Unit Unit

/-- Observable events of one `_execute_middleware_chain` run. -/
inductive ChainEv where
  | handlerCall
  | onUpdateCall (i : Nat)
  | onErrorCall (i : Nat)
deriving DecidableEq

/-- The forward continuation `next_handler` (`client.py` lines 245–260)
walking the middleware iterator: a middleware with `on_update` is invoked
(pass-through shape: it calls `next_handler()` once and propagates), one
without `on_update` is skipped with `next_handler()` auto-invoked, and on
`StopIteration` the terminal handler runs, producing `handlerOutcome`. -/
def nextHandler {E : Type} (handlerOutcome : Except E Unit) :
    Nat → List Middleware → List ChainEv × Except E Unit
  | _, [] => ([ChainEv.handlerCall], handlerOutcome)
  | i, m :: rest =>
    ((if m.hasOnUpdate then [ChainEv.onUpdateCall i] else [])
        ++ (nextHandler handlerOutcome (i + 1) rest).1,
      (nextHandler handlerOutcome (i + 1) rest).2)

/-- The error-notification loop (lines 266–271): every middleware with
`on_error` is called once, in list order, inside a `try/except` that
swallows (merely logs) exceptions raised by the hook itself. -/
def notifyPass : Nat → List Middleware → List ChainEv
  | _, [] => []
  | i, m :: rest =>
    (if m.hasOnError then
      match m.onErrorBody with
      | .ok _ => [ChainEv.onErrorCall i]
      | .error _ => [ChainEv.onErrorCall i]
     else []) ++ notifyPass (i + 1) rest

/-- `_execute_middleware_chain` (lines 235–274): run the forward chain; if
it raises, run the notification loop over **all** middleware and then
re-raise the original exception. -/
def executeChain {E : Type} (mws : List Middleware)
    (handlerOutcome : Except E Unit) : List ChainEv × Except E Unit :=
  match (nextHandler handlerOutcome 0 mws).2 with
  | .ok _ => ((nextHandler handlerOutcome 0 mws).1, .ok ())
  | .error e =>
    ((nextHandler handlerOutcome 0 mws).1 ++ notifyPass 0 mws, .error e)

/-- Whether the `i`-th middleware defines `on_error`. -/
def hasOnErrorAt (mws : List Middleware) (i : Nat) : Bool :=
  match mws.get? i with
  | some m => m.hasOnError
  | none => false

/-- The positions, in registration order, of the middleware defining
`on_error`. -/
def onErrorPositions (mws : List Middleware) : List Nat :=
  (List.range mws.length).filter (hasOnErrorAt mws)

/-- The index of an `on_error` invocation event, if the event is one. -/
def onErrorIdx : ChainEv → Option Nat
  | ChainEv.onErrorCall i => some i
  | _ => none

/-! ## Polling supervisor (`client.py`, `SwiftBot.run_polling`) -/

/-- One raw update of a fetched batch as consumed by the per-update loop
(lines 341–350): its `update.get('update_id', 0)` input and whether
`worker_pool.submit` raises for it. -/
structure RawUpdate where
  update_id : Option Nat
  submitRaises : Bool

/-- `update.get('update_id', 0)`. -/
def uidOf (u : RawUpdate) : Nat := u.update_id.getD 0

/-- The successive values assigned to `self._update_offset` by the batch
loop: each iteration assigns `update.get('update_id', 0) + 1` **before**
calling `submit`, and a raising `submit` is caught by the inner `except`
(line 349), so the assignment stands regardless of the submit outcome. -/
def batchOffsets : List RawUpdate → List Nat
  | [] => []
  | u :: rest => (uidOf u + 1) :: batchOffsets rest

/-- `self._update_offset` after the whole batch loop, starting from
`offset0`; this is the offset the next `get_updates` call uses. -/
def processBatch (offset0 : Nat) : List RawUpdate → Nat
  | [] => offset0
  | u :: rest => processBatch (uidOf u + 1) rest

/-- What the failure branch of one polling iteration sleeps before the next
iteration. -/
inductive SleepAction where
  | circuitBreak (seconds : ℚ)
  | backoff (seconds : ℚ)
deriving DecidableEq

/-- The exponential-backoff formula of lines 364–367:
`min(backoff_factor * (2 ** consecutive_failures), max_backoff)`.  Every
quantity the sources reach here (`0.5 * 2^k` and the cap `60`) is a dyadic
rational on which Python float arithmetic is exact, so `ℚ` is a faithful
model of the computation. -/
def backoffTime (backoffFactor : ℚ) (consecutiveFailures : Nat)
    (maxBackoff : ℚ) : ℚ :=
  min (backoffFactor * 2 ^ consecutiveFailures) maxBackoff

/-- The `except` branch of one polling iteration (lines 352–369): increment
`consecutive_failures`; if the result reaches `circuit_breaker_threshold`,
sleep `circuit_breaker_timeout`, reset the counter to 0 and `continue`
(bypassing the backoff formula); otherwise sleep the backoff time.  Returns
the new `consecutive_failures` and the sleep performed. -/
def onFetchFailure (consecutiveFailures : Nat) (threshold : Nat)
    (backoffFactor maxBackoff circuitTimeout : ℚ) : Nat × SleepAction :=
  let cf := consecutiveFailures + 1
  if threshold ≤ cf then (0, SleepAction.circuitBreak circuitTimeout)
  else (cf, SleepAction.backoff (backoffTime backoffFactor cf maxBackoff))

/-- The batch of the spec's offset-monotonicity scenario: ids 101, 102, 103,
with the submission of update 102 failing. -/
def batch101 : List RawUpdate :=
  [⟨some 101, false⟩, ⟨some 102, true⟩, ⟨some 103, false⟩]

theorem childGet_childSet_self {α : Type} (cs : List (Char × TrieNode α))
    (c : Char) (t : TrieNode α) : childGet (childSet cs c t) c = some t := by
  induction cs with
  | nil => simp [childSet, childGet]
  | cons p rest ih =>
    obtain ⟨c', t'⟩ := p
    by_cases h : c' = c <;> simp [childSet, childGet, h, ih]

theorem childGet_childSet_ne {α : Type} (cs : List (Char × TrieNode α))
    (c c' : Char) (t : TrieNode α) (h : c' ≠ c) :
    childGet (childSet cs c t) c' = childGet cs c' := by
  induction cs with
  | nil => simp [childSet, childGet, Ne.symm h]
  | cons p rest ih =>
    obtain ⟨c'', t''⟩ := p
    by_cases hc : c'' = c
    · subst hc
      simp [childSet, childGet, Ne.symm h]
    · simp [childSet, childGet, hc, ih]

theorem search_empty {α : Type} (s : Str) :
    (TrieNode.empty : TrieNode α).search s = none := by
  cases s <;> simp [TrieNode.empty, TrieNode.search, childGet]

theorem search_insert {α : Type} (t : TrieNode α) (c c' : Str) (v : α) :
    (t.insert c v).search c' = if c' = c then some v else t.search c' := by
  induction c generalizing t c' with
  | nil =>
    obtain ⟨ch, h, e⟩ := t
    cases c' <;> simp [TrieNode.insert, TrieNode.search]
  | cons a as ih =>
    obtain ⟨ch, h, e⟩ := t
    cases c' with
    | nil => simp [TrieNode.insert, TrieNode.search]
    | cons d ds =>
      by_cases hda : d = a
      · subst hda
        simp only [TrieNode.insert, TrieNode.search, childGet_childSet_self, ih,
          List.cons.injEq, true_and]
        by_cases hds : ds = as
        · simp [hds]
        · simp only [hds, if_false, if_neg]
          cases hg : childGet ch d with
          | none => simp [Option.getD, search_empty]
          | some child => simp [Option.getD]
      · have hne : ¬(d :: ds) = (a :: as) := by simp [hda]
        simp [TrieNode.insert, TrieNode.search,
          childGet_childSet_ne ch a d _ hda, hne]

theorem search_foldl_insert {α : Type} (l : List (Str × α)) (t : TrieNode α)
    (c : Str) :
    (l.foldl (fun t p => t.insert p.1 p.2) t).search c =
      match lastBinding l c with
      | some v => some v
      | none => t.search c := by
  induction l generalizing t with
  | nil => simp [lastBinding]
  | cons p rest ih =>
    simp only [List.foldl_cons, lastBinding]
    rw [ih]
    cases hl : lastBinding rest c with
    | some v => simp
    | none =>
      simp only [search_insert]
      by_cases h : c = p.1
      · simp [h]
      · simp [h, Ne.symm h]

theorem lastBinding_eq_none {α : Type} (l : List (Str × α)) (c : Str)
    (h : c ∉ l.map Prod.fst) : lastBinding l c = none := by
  induction l with
  | nil => rfl
  | cons p rest ih =>
    simp only [List.map_cons, List.mem_cons, not_or] at h
    simp [lastBinding, ih h.2, Ne.symm h.1]

/-- C6: for every command `c` inserted with binding `v`, `search c` returns
`v`; a trie built from a sequence of inserts binds each string to the **last**
value inserted for it (so a later insert of the same command overwrites the
earlier binding), and any string that is not an inserted command — proper
prefixes of inserted commands and strings with an absent edge included —
yields no match. -/
theorem C6_trie_insert_search_overwrite :
    (∀ (α : Type) (t : TrieNode α) (c : Str) (v : α),
      (t.insert c v).search c = some v) ∧
    (∀ (α : Type) (l : List (Str × α)) (c : Str),
      (buildTrie l).search c = lastBinding l c) ∧
    (∀ (α : Type) (l : List (Str × α)) (c : Str),
      c ∉ l.map Prod.fst → (buildTrie l).search c = none) ∧
    (∀ (α : Type) (t : TrieNode α) (c : Str) (v1 v2 : α),
      ((t.insert c v1).insert c v2).search c = some v2) := by
  have hfull : ∀ (α : Type) (l : List (Str × α)) (c : Str),
      (buildTrie l).search c = lastBinding l c := by
    intro α l c
    rw [buildTrie, search_foldl_insert]
    cases lastBinding l c <;> simp [search_empty]
  refine ⟨?_, hfull, ?_, ?_⟩
  · intro α t c v; simp [search_insert]
  · intro α l c h; rw [hfull, lastBinding_eq_none l c h]
  · intro α t c v1 v2; simp [search_insert]

/-- Closed instance of `C6_trie_insert_search_overwrite`, discharging the
non-membership hypothesis of its third conjunct at a concrete trie:
`"/star"` was never inserted (it is a proper prefix of `"/start"`), so the
search misses. -/
theorem C6_trie_insert_search_overwrite_witness :
    (buildTrie [(['/', 's', 't', 'a', 'r', 't'], 1)]).search
      ['/', 's', 't', 'a', 'r'] = none :=
  C6_trie_insert_search_overwrite.2.2.1 Nat
    [(['/', 's', 't', 'a', 'r', 't'], 1)] ['/', 's', 't', 'a', 'r']
    (by decide)

theorem firstPatMatch_eq_none (ps : List RPattern) (t : Str)
    (h : ∀ p ∈ ps, p.matchAt t = none) : firstPatMatch ps t = none := by
  induction ps with
  | nil => rfl
  | cons p rest ih =>
    simp only [firstPatMatch, h p (List.mem_cons_self p rest)]
    exact ih fun q hq => h q (List.mem_cons_of_mem p hq)

/-- C2: for a message update whose trimmed text begins with `'/'` and whose
extracted command (first whitespace-delimited token, `'@'`-suffix dropped)
is bound in the command trie, `route` returns the trie-bound handler with no
match captures, for **every** router state — in particular independently of
whatever (arbitrarily high-priority) handlers sit in the priority-ordered
table. -/
theorem C2_route_fast_path_bypasses_table :
    ∀ (H : Type) (r : Router H) (u : UpdateObj) (t : Str) (h : H)
      (spec : EventSpec),
      u.text = some (some t) →
      (pyStrip t).head? = some '/' →
      r.commandTrie.search (extractCommand (pyStrip t)) = some (h, spec) →
      r.route u "message" = some (h, none, spec) := by
  intro H r u t h spec hu hhead hsearch
  have ht : t ≠ [] := by
    intro h0
    subst h0
    rw [show pyStrip ([] : Str) = [] from rfl] at hhead
    simp at hhead
  obtain ⟨cs, hsp⟩ : ∃ cs, pyStrip t = '/' :: cs := by
    cases hsp : pyStrip t with
    | nil => rw [hsp] at hhead; simp at hhead
    | cons c cs =>
      rw [hsp] at hhead
      simp only [List.head?_cons, Option.some.injEq] at hhead
      exact ⟨cs, by rw [hhead]⟩
  have hut : updTextTruthy u = some t := by
    cases t with
    | nil => exact absurd rfl ht
    | cons a as => simp [updTextTruthy, hu, List.isEmpty]
  rw [hsp] at hsearch
  simp [Router.route, hut, hsp, hsearch]

/-- Closed instance of `C2_route_fast_path_bypasses_table`: with command
`"/ping"` registered at priority 0 and an all-matching pattern handler at
priority 10, the update `"/ping"` is answered by the trie handler. -/
theorem C2_route_fast_path_bypasses_table_witness :
    routerPing.route updPing "message" = some (7, none, specPing) :=
  C2_route_fast_path_bypasses_table Nat routerPing updPing
    ['/', 'p', 'i', 'n', 'g'] 7 specPing rfl rfl rfl

/-- C7 counterexample: the spec `Message(text="/a", func=lambda u: False)`
carries a custom predicate, yet `add_handler` routes it into the trie and
leaves the priority table empty; moreover the fast path then answers the
update `"/a"` with its handler although `matches` rejects that update — so
the trie routing is user-visible, contrary to the claim. -/
theorem C7_trie_registration_counterexample :
    (Router.empty.addHandler specSlashAFunc 7 0 : Router Nat).textHandlers
      = [] ∧
    (Router.empty.addHandler specSlashAFunc 7 0 : Router Nat).commandTrie.search
      ['/', 'a'] = some (7, specSlashAFunc) ∧
    specSlashAFunc.matches updSlashA = MatchRes.noMatch ∧
    (Router.empty.addHandler specSlashAFunc 7 0 : Router Nat).route updSlashA
      "message" = some (7, none, specSlashAFunc) :=
  ⟨rfl, rfl, rfl, rfl⟩

/-- C7 amended: a Message spec is routed into the command trie iff its
`text` is truthy and starts with `'/'`, **regardless** of patterns, custom
predicate or keyword filters; every other Message spec is appended to the
priority-sorted text-handler table. -/
theorem C7_trie_registration_amended :
    ∀ (H : Type) (r : Router H) (spec : EventSpec) (h : H) (priority : Int),
      spec.cls = EventClass.Message →
      (∀ cs, spec.text = some ('/' :: cs) →
        r.addHandler spec h priority =
          { r with commandTrie := r.commandTrie.insert ('/' :: cs) (h, spec) }) ∧
      (commandText spec = none →
        r.addHandler spec h priority =
          { r with textHandlers :=
              addToSorted (spec, h, priority) r.textHandlers }) := by
  intro H r spec h priority hcls
  constructor
  · intro cs htext
    have hcmd : commandText spec = some ('/' :: cs) := by
      unfold commandText
      rw [htext]
      rfl
    simp [Router.addHandler, hcls, EventClass.className, hcmd]
  · intro hcmd
    simp [Router.addHandler, hcls, EventClass.className, hcmd]

/-- Closed instance of `C7_trie_registration_amended`: the constrained spec
`Message(text="/a", func=...)` still lands in the trie. -/
theorem C7_trie_registration_amended_witness :
    (Router.empty : Router Nat).addHandler specSlashAFunc 7 0 =
      { (Router.empty : Router Nat) with
        commandTrie :=
          (Router.empty : Router Nat).commandTrie.insert ['/', 'a']
            (7, specSlashAFunc) } :=
  (C7_trie_registration_amended Nat Router.empty specSlashAFunc 7 0 rfl).1
    ['a'] rfl

/-- C10: when a spec carries both an exact text and a non-empty pattern list
and the update's text equals the exact text while no pattern matches,
`matches` behaves exactly as for the same spec without patterns (the
pattern list does not veto — the rejection branch requires `self.text is
None`), and with no further constraints it returns the `True` match. -/
theorem C10_exact_text_disables_pattern_veto :
    ∀ (spec : EventSpec) (u : UpdateObj) (t : Str),
      spec.text = some t → t ≠ [] → u.text = some (some t) →
      spec.patterns ≠ [] → (∀ p ∈ spec.patterns, p.matchAt t = none) →
      spec.matches u = EventSpec.matches { spec with patterns := [] } u ∧
      (spec.func = none → spec.filters = [] →
        spec.matches u = MatchRes.plainTrue) := by
  intro spec u t htext ht hu hps hfail
  have hb1 : block1Rejects spec u = false := by
    simp [block1Rejects, hu, htext]
  have hb1' : block1Rejects { spec with patterns := [] } u = false := by
    simp [block1Rejects, specTextTruthy, hu, htext]
  have hut : updTextTruthy u = some t := by
    cases t with
    | nil => exact absurd rfl ht
    | cons a as => simp [updTextTruthy, hu, List.isEmpty]
  have hfm : firstPatMatch spec.patterns t = none :=
    firstPatMatch_eq_none _ _ hfail
  have hmain : spec.matches u = funcFiltersCheck spec u := by
    cases hp : spec.patterns with
    | nil => exact absurd hp hps
    | cons p ps =>
      rw [hp] at hfm
      simp [EventSpec.matches, hb1, hut, hp, hfm, htext]
  constructor
  · rw [hmain]
    have : EventSpec.matches { spec with patterns := [] } u =
        funcFiltersCheck { spec with patterns := [] } u := by
      simp [EventSpec.matches, hb1', hut]
    rw [this]
    rfl
  · intro hfunc hfilters
    rw [hmain]
    simp [funcFiltersCheck, hfunc, hfilters, filtersPass]

/-- Closed instance of `C10_exact_text_disables_pattern_veto`:
`Message(text="/a", pattern=<never matching>)` still matches the update
`"/a"`. -/
theorem C10_exact_text_disables_pattern_veto_witness :
    specSlashAPat.matches updSlashA = MatchRes.plainTrue :=
  (C10_exact_text_disables_pattern_veto specSlashAPat updSlashA ['/', 'a']
      rfl (by decide) rfl (by simp [specSlashAPat])
      (by
        intro p hp
        simp only [specSlashAPat, List.mem_singleton] at hp
        subst hp
        rfl)).2 rfl rfl

theorem evalF_ok {M : Type} (f : BotFilter M) (m : M) :
    ∃ b, evalF f m = Except.ok b := by
  induction f with
  | leaf body =>
    cases h : body m with
    | ok b => exact ⟨b, by rw [evalF, h]⟩
    | error e => exact ⟨false, by rw [evalF, h]⟩
  | andF a b iha ihb =>
    obtain ⟨ba, ha⟩ := iha
    obtain ⟨bb, hb⟩ := ihb
    refine ⟨ba && bb, ?_⟩
    rw [evalF, ha, hb]
    cases ba <;> cases bb <;> rfl
  | orF a b iha ihb =>
    obtain ⟨ba, ha⟩ := iha
    obtain ⟨bb, hb⟩ := ihb
    refine ⟨ba || bb, ?_⟩
    rw [evalF, ha, hb]
    cases ba <;> cases bb <;> rfl
  | notF a iha =>
    obtain ⟨ba, ha⟩ := iha
    refine ⟨!ba, ?_⟩
    rw [evalF, ha]

theorem evalF_total {M : Type} (f : BotFilter M) (m : M) :
    evalF f m = Except.ok (evalBool f m) := by
  obtain ⟨b, hb⟩ := evalF_ok f m
  rw [evalBool, hb]

/-- C8: for every message and every pair of filters, `AndFilter` evaluates
to the conjunction and `OrFilter` to the disjunction of the operands'
values; each leaf isolates its own failure (a raising body contributes
`False`), so a raising first operand of `or` does not mask a true second
operand. -/
theorem C8_filter_boolean_algebra :
    ∀ (M : Type) (A B : BotFilter M) (m : M),
      evalBool (BotFilter.andF A B) m = (evalBool A m && evalBool B m) ∧
      evalBool (BotFilter.orF A B) m = (evalBool A m || evalBool B m) ∧
      (∀ body : M → Except Unit Bool, body m = Except.error () →
        evalBool B m = true →
        evalBool (BotFilter.orF (BotFilter.leaf body) B) m = true) := by
  intro M A B m
  have hA := evalF_total A m
  have hB := evalF_total B m
  refine ⟨?_, ?_, ?_⟩
  · have h1 : evalF (BotFilter.andF A B) m
        = Except.ok (evalBool A m && evalBool B m) := by
      rw [evalF, hA, hB]
      cases evalBool A m <;> cases evalBool B m <;> rfl
    rw [evalBool, h1]
  · have h1 : evalF (BotFilter.orF A B) m
        = Except.ok (evalBool A m || evalBool B m) := by
      rw [evalF, hA, hB]
      cases evalBool A m <;> cases evalBool B m <;> rfl
    rw [evalBool, h1]
  · intro body hbody hBtrue
    have hleaf : evalF (BotFilter.leaf body) m = Except.ok false := by
      rw [evalF, hbody]
    have h1 : evalF (BotFilter.orF (BotFilter.leaf body) B) m
        = Except.ok true := by
      rw [evalF, hleaf, hB, hBtrue]
    rw [evalBool, h1]

/-- Closed instance of `C8_filter_boolean_algebra`: an `or` whose first
operand's body raises and whose second operand is constantly true evaluates
to true. -/
theorem C8_filter_boolean_algebra_witness :
    evalBool (BotFilter.orF
      (BotFilter.leaf (fun _ : Nat => (Except.error () : Except Unit Bool)))
      (BotFilter.leaf (fun _ => Except.ok true))) 0 = true :=
  (C8_filter_boolean_algebra Nat
      (BotFilter.leaf (fun _ => (Except.error () : Except Unit Bool)))
      (BotFilter.leaf (fun _ => Except.ok true)) 0).2.2
    (fun _ => (Except.error () : Except Unit Bool)) rfl rfl

/-- C9: filter evaluation is total — a filter call never raises to its
caller — and a leaf whose inner predicate raises evaluates directly to
`False`, while `NotFilter` over it evaluates to `True` (the preserved
asymmetry). -/
theorem C9_filter_total_notF_asymmetry :
    ∀ (M : Type) (A : BotFilter M) (m : M),
      evalF A m = Except.ok (evalBool A m) ∧
      (∀ body : M → Except Unit Bool, body m = Except.error () →
        evalBool (BotFilter.leaf body) m = false ∧
        evalBool (BotFilter.notF (BotFilter.leaf body)) m = true) := by
  intro M A m
  refine ⟨evalF_total A m, ?_⟩
  intro body hbody
  have hleaf : evalF (BotFilter.leaf body) m = Except.ok false := by
    rw [evalF, hbody]
  have hnot : evalF (BotFilter.notF (BotFilter.leaf body)) m
      = Except.ok true := by
    rw [evalF, hleaf]
    rfl
  constructor
  · rw [evalBool, hleaf]
  · rw [evalBool, hnot]

/-- Closed instance of `C9_filter_total_notF_asymmetry` at a raising leaf. -/
theorem C9_filter_total_notF_asymmetry_witness :
    evalBool (BotFilter.leaf
      (fun _ : Nat => (Except.error () : Except Unit Bool))) 0 = false ∧
    evalBool (BotFilter.notF (BotFilter.leaf
      (fun _ : Nat => (Except.error () : Except Unit Bool)))) 0 = true :=
  (C9_filter_total_notF_asymmetry Nat
      (BotFilter.leaf (fun _ => (Except.error () : Except Unit Bool))) 0).2
    (fun _ => (Except.error () : Except Unit Bool)) rfl

theorem nextHandler_spec {E : Type} (e : E) (mws : List Middleware) :
    ∀ i : Nat,
      (nextHandler (Except.error e : Except E Unit) i mws).2 = Except.error e ∧
      (nextHandler (Except.error e : Except E Unit) i mws).1.count
        ChainEv.handlerCall = 1 ∧
      (nextHandler (Except.error e : Except E Unit) i mws).1.filterMap
        onErrorIdx = [] := by
  induction mws with
  | nil => intro i; exact ⟨rfl, rfl, rfl⟩
  | cons m rest ih =>
    intro i
    obtain ⟨h2, hc, hf⟩ := ih (i + 1)
    refine ⟨h2, ?_, ?_⟩
    · rw [show (nextHandler (Except.error e : Except E Unit) i (m :: rest)).1
          = (if m.hasOnUpdate then [ChainEv.onUpdateCall i] else [])
            ++ (nextHandler (Except.error e : Except E Unit) (i + 1) rest).1
          from rfl, List.count_append, hc]
      cases m.hasOnUpdate <;> rfl
    · rw [show (nextHandler (Except.error e : Except E Unit) i (m :: rest)).1
          = (if m.hasOnUpdate then [ChainEv.onUpdateCall i] else [])
            ++ (nextHandler (Except.error e : Except E Unit) (i + 1) rest).1
          from rfl, List.filterMap_append, hf]
      cases m.hasOnUpdate <;> rfl

theorem onErrorPositions_cons (m : Middleware) (rest : List Middleware) :
    onErrorPositions (m :: rest) =
      (if m.hasOnError then [0] else []) ++
        (onErrorPositions rest).map Nat.succ := by
  unfold onErrorPositions
  rw [List.length_cons, List.range_succ_eq_map, List.filter_cons,
    List.filter_map]
  have hzero : hasOnErrorAt (m :: rest) 0 = m.hasOnError := rfl
  have hcomp : hasOnErrorAt (m :: rest) ∘ Nat.succ = hasOnErrorAt rest := rfl
  rw [hzero, hcomp]
  cases m.hasOnError <;> simp

theorem notifyPass_filterMap (mws : List Middleware) :
    ∀ i : Nat, (notifyPass i mws).filterMap onErrorIdx
      = (onErrorPositions mws).map (i + ·) := by
  induction mws with
  | nil => intro i; rfl
  | cons m rest ih =>
    intro i
    have hfun : ((fun x => i + x) ∘ Nat.succ) = fun x => (i + 1) + x := by
      funext x
      simp only [Function.comp_apply]
      omega
    rw [notifyPass, List.filterMap_append, ih (i + 1), onErrorPositions_cons,
      List.map_append, List.map_map, hfun]
    cases hm : m.hasOnError
    · simp
    · cases hb : m.onErrorBody <;> simp [onErrorIdx]

theorem handlerCall_not_mem_notifyPass (mws : List Middleware) :
    ∀ i : Nat, ChainEv.handlerCall ∉ notifyPass i mws := by
  induction mws with
  | nil => intro i h; exact absurd h (List.not_mem_nil _)
  | cons m rest ih =>
    intro i h
    rw [notifyPass] at h
    rcases List.mem_append.mp h with h1 | h2
    · cases hm : m.hasOnError
      · rw [hm] at h1; exact absurd h1 (List.not_mem_nil _)
      · rw [hm] at h1
        cases hb : m.onErrorBody <;> rw [hb] at h1 <;> simp at h1
    · exact ih (i + 1) h2

/-- C1: when the terminal handler raises `e`, `_execute_middleware_chain`
invokes the handler exactly once, invokes the `on_error` hook of exactly
those middleware that define one — each exactly once, in registration order,
middleware positioned after the point of failure included, and unaffected by
hooks that themselves raise (their exception is swallowed) — and finally
re-raises the original exception to its caller. -/
theorem C1_middleware_error_fanout :
    ∀ (E : Type) (mws : List Middleware) (e : E),
      (executeChain mws (Except.error e)).2 = Except.error e ∧
      (executeChain mws (Except.error e)).1.count ChainEv.handlerCall = 1 ∧
      (executeChain mws (Except.error e)).1.filterMap onErrorIdx
        = onErrorPositions mws ∧
      (onErrorPositions mws).Pairwise (· < ·) := by
  intro E mws e
  have hnh := nextHandler_spec e mws 0
  have hexec : executeChain mws (Except.error e : Except E Unit)
      = ((nextHandler (Except.error e : Except E Unit) 0 mws).1
          ++ notifyPass 0 mws, Except.error e) := by
    rw [executeChain, hnh.1]
  refine ⟨by rw [hexec], ?_, ?_, ?_⟩
  · simp only [hexec]
    rw [List.count_append, hnh.2.1,
      List.count_eq_zero.mpr (handlerCall_not_mem_notifyPass mws 0)]
  · simp only [hexec]
    rw [List.filterMap_append, hnh.2.2, List.nil_append,
      notifyPass_filterMap mws 0]
    simp
  · exact List.Pairwise.filter _ (List.pairwise_lt_range mws.length)

theorem batchOffsets_eq_map (us : List RawUpdate) :
    batchOffsets us = (us.map uidOf).map (· + 1) := by
  induction us with
  | nil => rfl
  | cons u rest ih => rw [batchOffsets, ih, List.map_cons, List.map_cons]

theorem chainLe_cons_map_succ :
    ∀ (l : List Nat) (a : Nat),
      List.Chain' (· ≤ ·) l →
      (∀ x, l.head? = some x → a ≤ x + 1) →
      List.Chain' (· ≤ ·) (a :: l.map (· + 1)) := by
  intro l
  induction l with
  | nil =>
    intro a _ _
    simp
  | cons x xs ih =>
    intro a hch hhead
    rw [List.map_cons]
    obtain ⟨hx, hxs⟩ := List.chain'_cons'.mp hch
    refine List.Chain'.cons (hhead x rfl) ?_
    refine ih (x + 1) hxs ?_
    intro y hy
    exact Nat.succ_le_succ (hx y hy)

/-- C3: the batch loop of `run_polling` advances the offset to
`update_id + 1` for each update in turn; the final offset — the one the next
`get_updates` call uses — is the last update's id plus one, depends only on
the ids (submit failures are caught after the offset assignment and change
nothing), and over an ascending-id batch the successive offset values never
move backward. -/
theorem C3_offset_advances_unconditionally :
    ∀ (offset0 : Nat) (us : List RawUpdate),
      (∀ u, us.getLast? = some u → processBatch offset0 us = uidOf u + 1) ∧
      (us = [] → processBatch offset0 us = offset0) ∧
      (∀ us' : List RawUpdate, us.map uidOf = us'.map uidOf →
        processBatch offset0 us = processBatch offset0 us') ∧
      ((offset0 :: batchOffsets us).getLast? = some (processBatch offset0 us)) ∧
      (List.Chain' (· ≤ ·) (us.map uidOf) →
        (∀ u, us.head? = some u → offset0 ≤ uidOf u + 1) →
        List.Chain' (· ≤ ·) (offset0 :: batchOffsets us)) := by
  have hlast : ∀ (us : List RawUpdate) (offset0 : Nat) (u : RawUpdate),
      us.getLast? = some u → processBatch offset0 us = uidOf u + 1 := by
    intro us
    induction us with
    | nil => intro offset0 u h; simp at h
    | cons v rest ih =>
      intro offset0 u h
      cases rest with
      | nil =>
        simp only [List.getLast?_singleton, Option.some.injEq] at h
        rw [← h]
        rfl
      | cons w ws =>
        rw [List.getLast?_cons_cons] at h
        exact ih (uidOf v + 1) u h
  have hindep : ∀ (us us' : List RawUpdate) (offset0 : Nat),
      us.map uidOf = us'.map uidOf →
      processBatch offset0 us = processBatch offset0 us' := by
    intro us
    induction us with
    | nil =>
      intro us' offset0 h
      cases us' with
      | nil => rfl
      | cons v vs => simp at h
    | cons u rest ih =>
      intro us' offset0 h
      cases us' with
      | nil => simp at h
      | cons v vs =>
        simp only [List.map_cons, List.cons.injEq] at h
        rw [processBatch, processBatch, h.1]
        exact ih vs (uidOf v + 1) h.2
  have htrace : ∀ (us : List RawUpdate) (offset0 : Nat),
      (offset0 :: batchOffsets us).getLast? = some (processBatch offset0 us) := by
    intro us
    induction us with
    | nil => intro offset0; rfl
    | cons u rest ih =>
      intro offset0
      rw [batchOffsets, List.getLast?_cons_cons, processBatch]
      exact ih (uidOf u + 1)
  intro offset0 us
  refine ⟨fun u h => hlast us offset0 u h, fun h => by rw [h]; rfl,
    fun us' h => hindep us us' offset0 h, htrace us offset0, ?_⟩
  intro hch hhead
  rw [batchOffsets_eq_map]
  refine chainLe_cons_map_succ (us.map uidOf) offset0 hch ?_
  intro x hx
  cases us with
  | nil => simp at hx
  | cons u rest =>
    simp only [List.map_cons, List.head?_cons, Option.some.injEq] at hx
    rw [← hx]
    exact hhead u rfl

/-- Closed instance of `C3_offset_advances_unconditionally`: the batch with
ids `[101, 102, 103]` — the submission of update 102 failing — leaves the
next fetch at offset 104. -/
theorem C3_offset_advances_unconditionally_witness :
    processBatch 101 batch101 = 104 :=
  (C3_offset_advances_unconditionally 101 batch101).1 ⟨some 103, false⟩ rfl

/-- C4: a fetch failure that brings `consecutive_failures` up to (or past)
`circuit_breaker_threshold` makes the supervisor sleep
`circuit_breaker_timeout`, reset the failure counter to 0 and `continue` to
the next polling iteration, without computing a backoff sleep. -/
theorem C4_circuit_breaker_resets_and_skips_backoff :
    ∀ (cf threshold : Nat) (bf mb ct : ℚ),
      threshold ≤ cf + 1 →
      onFetchFailure cf threshold bf mb ct
        = (0, SleepAction.circuitBreak ct) := by
  intro cf threshold bf mb ct h
  simp [onFetchFailure, h]

/-- Closed instance of `C4_circuit_breaker_resets_and_skips_backoff`: with
threshold 5, the 5th consecutive failure (counter 4 before the increment)
takes the circuit-breaker path. -/
theorem C4_circuit_breaker_resets_and_skips_backoff_witness :
    onFetchFailure 4 5 (1/2) 60 60 = (0, SleepAction.circuitBreak 60) :=
  C4_circuit_breaker_resets_and_skips_backoff 4 5 (1/2) 60 60 (by norm_num)

/-- C5: a fetch failure that stays below the circuit-breaker threshold
sleeps `min(backoff_factor * 2^consecutive_failures, max_backoff)`; with
`backoff_factor = 0.5` and `max_backoff = 60`, failure counts
1, 2, 3, 4, 5, 10 yield sleeps 1, 2, 4, 8, 16 and 60 (capped). -/
theorem C5_exponential_backoff_formula :
    (∀ (cf threshold : Nat) (bf mb ct : ℚ),
      cf + 1 < threshold →
      onFetchFailure cf threshold bf mb ct =
        (cf + 1, SleepAction.backoff (min (bf * 2 ^ (cf + 1)) mb))) ∧
    backoffTime (1/2) 1 60 = 1 ∧ backoffTime (1/2) 2 60 = 2 ∧
    backoffTime (1/2) 3 60 = 4 ∧ backoffTime (1/2) 4 60 = 8 ∧
    backoffTime (1/2) 5 60 = 16 ∧ backoffTime (1/2) 10 60 = 60 := by
  constructor
  · intro cf threshold bf mb ct h
    have h' : ¬ threshold ≤ cf + 1 := by omega
    simp [onFetchFailure, backoffTime, h']
  · refine ⟨?_, ?_, ?_, ?_, ?_, ?_⟩ <;> norm_num [backoffTime, min_def]

/-- Closed instance of `C5_exponential_backoff_formula`: the first failure
under threshold 5 sleeps the formula value. -/
theorem C5_exponential_backoff_formula_witness :
    onFetchFailure 0 5 (1/2) 60 60 =
      (1, SleepAction.backoff (min ((1/2 : ℚ) * 2 ^ 1) 60)) :=
  C5_exponential_backoff_formula.1 0 5 (1/2) 60 60 (by norm_num)

end SwiftBot
